import Mathlib

/-!
Verification development for the SBE CTD cast file pipeline
(`config_util.py`, `process.py`).

The Python functions are shallowly embedded as executable Lean
definitions over explicit data:

* the filesystem of a single directory is an association list
  `List (String × String)` of file names to contents, in enumeration
  order;
* `datetime` dates are encoded as the natural number
  `year * 10000 + month * 100 + day`, which is order-isomorphic to
  dates (month < 100, day < 100); a folder date (midnight) is `≤` a
  cast datetime iff the date-level encodings compare with `≤`;
* Python exceptions become `Except` / explicit outcome values, and a
  partially mutated state is returned alongside the error where the
  original mutates in place;
* the external SBE transform service is a parameter
  `String → String → Except String String` (function name, input text).
-/

namespace SbeCtdProc

/-! ### `datetime.strptime(s, "%Y%m%d")`

CPython's `_strptime` compiles `%Y%m%d` to the regex
`(\d\d\d\d)(1[0-2]|0[1-9]|[1-9])(3[01]|[12]\d|0[1-9]|[1-9])`,
matches it with backtracking at the start of the string, raises if it
does not match or if unconverted data remains, and finally the
`datetime` constructor validates the calendar date (year ≥ 1,
day ≤ days in month). -/

/-- Numeric value of a decimal digit character. -/
def digitVal (c : Char) : Nat := c.toNat - 48

/-- The regex alternatives for `%m` (`1[0-2]|0[1-9]|[1-9]`), in
priority order, as (value, remaining input) candidates. -/
def monthAlts (l : List Char) : List (Nat × List Char) :=
  (match l with
   | '1' :: c :: r => if '0' ≤ c ∧ c ≤ '2' then [(10 + digitVal c, r)] else []
   | _ => []) ++
  (match l with
   | '0' :: c :: r => if '1' ≤ c ∧ c ≤ '9' then [(digitVal c, r)] else []
   | _ => []) ++
  (match l with
   | c :: r => if '1' ≤ c ∧ c ≤ '9' then [(digitVal c, r)] else []
   | _ => [])

/-- The regex alternatives for `%d` (`3[01]|[12]\d|0[1-9]|[1-9]`), in
priority order. -/
def dayAlts (l : List Char) : List (Nat × List Char) :=
  (match l with
   | '3' :: c :: r => if '0' ≤ c ∧ c ≤ '1' then [(30 + digitVal c, r)] else []
   | _ => []) ++
  (match l with
   | c :: c2 :: r =>
     if ('1' ≤ c ∧ c ≤ '2') ∧ c2.isDigit then [(10 * digitVal c + digitVal c2, r)] else []
   | _ => []) ++
  (match l with
   | '0' :: c :: r => if '1' ≤ c ∧ c ≤ '9' then [(digitVal c, r)] else []
   | _ => []) ++
  (match l with
   | c :: r => if '1' ≤ c ∧ c ≤ '9' then [(digitVal c, r)] else []
   | _ => [])

/-- Backtracking match of `%m%d`: first month alternative for which
some day alternative matches; the day alternatives are tried in order. -/
def monthDay (l : List Char) : Option (Nat × Nat × List Char) :=
  (monthAlts l).findSome? fun mc =>
    (dayAlts mc.2).head?.map fun dc => (mc.1, dc.1, dc.2)

/-- `True` for leap years, as in `datetime`. -/
def isLeap (y : Nat) : Bool := y % 4 = 0 ∧ (y % 100 ≠ 0 ∨ y % 400 = 0)

/-- Days in a month, as validated by the `datetime` constructor. -/
def daysInMonth (y m : Nat) : Nat :=
  if m = 2 then (if isLeap y then 29 else 28)
  else if m = 4 ∨ m = 6 ∨ m = 9 ∨ m = 11 then 30
  else 31

/-- `datetime.strptime(s, "%Y%m%d")`, returning the encoded date
`y * 10000 + m * 100 + d`, or `none` where Python raises `ValueError`. -/
def strptimeYmd (s : String) : Option Nat :=
  match s.data with
  | c1 :: c2 :: c3 :: c4 :: rest =>
    if c1.isDigit ∧ c2.isDigit ∧ c3.isDigit ∧ c4.isDigit then
      let y := digitVal c1 * 1000 + digitVal c2 * 100 + digitVal c3 * 10 + digitVal c4
      match monthDay rest with
      | some (m, d, []) =>
        if 1 ≤ y ∧ d ≤ daysInMonth y m then some (y * 10000 + m * 100 + d) else none
      | _ => none
    else none
  | _ => none

/-- Python `name[-8:]`: the last 8 characters (the whole string when
shorter than 8). -/
def lastEight (s : String) : String := ⟨s.data.drop (s.data.length - 8)⟩

/-! ### `config_util.get_config_dir`

The loop over `sn_config_path.iterdir()` is embedded over the list of
directory entries in enumeration order.  Non-directories are skipped;
for each directory the trailing 8 characters of the name are parsed
with `strptime` (which raises — aborting the whole call — when the
parse fails), and the accumulator is overwritten whenever the parsed
date is `≤` the cast date, so the *last* qualifying entry in
enumeration order wins. -/

/-- One entry of `Path.iterdir()`: a name and whether it is a directory. -/
structure DirEntry where
  name : String
  isDir : Bool
deriving DecidableEq, Repr

/-- Errors raised by `get_config_dir` past the argument checks. -/
inductive ResolveErr
  /-- `datetime.strptime` raised `ValueError` on this folder name. -/
  | strptimeError (name : String)
  /-- `No config folder found for ...` -/
  | noConfigFolder
deriving DecidableEq, Repr

/-- The `for folder in sn_config_path.iterdir()` loop with the
`config_folder` accumulator. -/
def configDirLoop (castDate : Nat) : List DirEntry → Option String → Except ResolveErr String
  | [], none => .error .noConfigFolder
  | [], some f => .ok f
  | e :: rest, acc =>
    if e.isDir then
      match strptimeYmd (lastEight e.name) with
      | none => .error (.strptimeError e.name)
      | some d => configDirLoop castDate rest (if d ≤ castDate then some e.name else acc)
    else
      configDirLoop castDate rest acc

/-- `get_config_dir(serial_number, cast_date)` from the `iterdir` loop
onward, over the entries of `<configRoot>/<serialNumber>` in
enumeration order.  Returns the selected folder name. -/
def get_config_dir (entries : List DirEntry) (castDate : Nat) : Except ResolveErr String :=
  configDirLoop castDate entries none

/-! ### Directory contents

The contents of one directory are modelled as an association list of
file name to contents, in enumeration order.  Writing (`open(.., "w")`)
replaces the content in place or appends a new entry; `smart_copy_file`
only ever appends. -/

/-- Contents of a flat directory: file name ↦ file content, in
enumeration order. -/
abbrev FsDir := List (String × String)

/-- First content stored under `name` (Python `open(name)` succeeds iff
this is `some`). -/
def fsLookup : FsDir → String → Option String
  | [], _ => none
  | (k, v) :: rest, n => if k = n then some v else fsLookup rest n

/-- `open(name, "w").write(content)`: replace in place, or create at
the end of the directory listing. -/
def fsWrite : FsDir → String → String → FsDir
  | [], n, c => [(n, c)]
  | (k, v) :: rest, n, c => if k = n then (n, c) :: rest else (k, v) :: fsWrite rest n c

/-- `True` when `post` is a suffix of `rl.reverse` — helper for
`strEnds`, recursing over reversed character lists. -/
def revPre : List Char → List Char → Bool
  | [], _ => true
  | _ :: _, [] => false
  | a :: as, b :: bs => a = b && revPre as bs

/-- `name.endswith(ext)` / a `glob('*<ext>')` name match. -/
def strEnds (s ext : String) : Bool := revPre ext.data.reverse s.data.reverse

/-! ### `config_util.get_xmlcon` and the configuration folder -/

/-- One entry of a configuration folder, as seen by `glob`: a name,
contents, and whether it is a regular file. -/
structure CfgEntry where
  name : String
  content : String
  isFile : Bool
deriving DecidableEq, Repr

/-- A CTD configuration folder: its entries in enumeration order. -/
structure CfgFolder where
  entries : List CfgEntry
deriving DecidableEq, Repr

/-- `AssertionError`s raised by `get_xmlcon`. -/
inductive XmlconErr
  | multipleXmlcons
  | noXmlcon
deriving DecidableEq, Repr

/-- The `for xmlcon_file in config_folder.glob("*.xmlcon")` loop:
non-files are skipped, a second match raises, the single match is
returned. -/
def xmlconLoop : List CfgEntry → Option CfgEntry → Except XmlconErr CfgEntry
  | [], none => .error .noXmlcon
  | [], some p => .ok p
  | e :: rest, acc =>
    if strEnds e.name ".xmlcon" ∧ e.isFile then
      match acc with
      | some _ => .error .multipleXmlcons
      | none => xmlconLoop rest (some e)
    else
      xmlconLoop rest acc

/-- `get_xmlcon(config_folder)`. -/
def get_xmlcon (cfg : CfgFolder) : Except XmlconErr CfgEntry :=
  xmlconLoop cfg.entries none

/-! ### `process.smart_copy_file` and `process.setup_processing_dir` -/

/-- `smart_copy_file(src, dst)` with `dst` the processing directory:
copy `src` (given as name ↦ content) into the directory unless a file
of that name already exists there. -/
def smart_copy_file (fs : FsDir) (name content : String) : FsDir :=
  if (fsLookup fs name).isSome then fs else fs ++ [(name, content)]

/-- The `for psa_file in config_folder.glob('*.psa')` loop of
`setup_processing_dir`: copy each `.psa` regular file into the
processing directory (`smart_copy_file`), skipping non-files. -/
def copyPsaFiles : List CfgEntry → FsDir → FsDir
  | [], fs => fs
  | e :: rest, fs =>
    if strEnds e.name ".psa" then
      if e.isFile then copyPsaFiles rest (smart_copy_file fs e.name e.content)
      else copyPsaFiles rest fs
    else copyPsaFiles rest fs

/-- Names of the `dir.glob('*.xmlcon')` matches, in enumeration order. -/
def xmlconNames (fs : FsDir) : List String :=
  (fs.filter fun p => strEnds p.1 ".xmlcon").map Prod.fst

/-- Names of the `dir.glob('*.psa')` matches. -/
def psaNames (fs : FsDir) : List String :=
  (fs.filter fun p => strEnds p.1 ".psa").map Prod.fst

/-- The state of the per-cast processing directory. -/
structure ProcDir where
  exists' : Bool
  files : FsDir
deriving DecidableEq, Repr

/-- `AssertionError`s raised by `setup_processing_dir`. -/
inductive SetupErr
  /-- `processing dir has multiple xmlcon files` -/
  | multipleXmlcons
  /-- `no ctd config dir and no existing xmlcon files` -/
  | noXmlconNoConfig
  /-- `No psa files in: ...` -/
  | noPsaFiles
  /-- uncaught `get_xmlcon` failure while copying from the config folder -/
  | configXmlcon (e : XmlconErr)
deriving DecidableEq, Repr

/-- `setup_processing_dir(ctdfile, config_folder)`.  `hexName/hexContent`
is the cast's raw capture (`ctdfile.hex_path`); returns the resolved
xmlcon name and the directory after setup.

Mirrors the source order: `mkdir(exist_ok=True)`, copy the hex file,
glob the existing `.xmlcon` files (fatal if more than one), then either
copy `.psa` profiles and the config folder's xmlcon (the `get_xmlcon`
failure is uncaught only when the directory had no xmlcon; with an
existing xmlcon the name-comparison `try` block swallows it), or,
without a config folder, require one existing xmlcon and at least one
`.psa`. -/
def setup_processing_dir (d : ProcDir) (hexName hexContent : String)
    (configFolder : Option CfgFolder) : Except SetupErr (String × ProcDir) :=
  let files := smart_copy_file d.files hexName hexContent
  let existingXmlcons := xmlconNames files
  if 1 < existingXmlcons.length then .error .multipleXmlcons
  else
    match configFolder with
    | some cfg =>
      let files := copyPsaFiles cfg.entries files
      if existingXmlcons.length = 0 then
        match get_xmlcon cfg with
        | .error e => .error (.configXmlcon e)
        | .ok x => .ok (x.name, ⟨true, smart_copy_file files x.name x.content⟩)
      else
        .ok (existingXmlcons.headD "", ⟨true, files⟩)
    | none =>
      if existingXmlcons.length = 0 then .error .noXmlconNoConfig
      else if (psaNames files).length = 0 then .error .noPsaFiles
      else .ok (existingXmlcons.headD "", ⟨true, files⟩)

/-! ### `process.convert_hex_to_cnv`, `process.process_step`, `process.process_cnv`

The external transform service (`SBE`) is a parameter
`tr : String → String → Except String String`: `tr funcName input`
either returns the output text or raises.  File reads and writes of the
pipeline are recorded in an event trace. -/

/-- One element of `CONFIG.processing_sequence`:
`{'function': .., 'psa_file': .., 'append': ..}`. -/
structure Step where
  function : String
  psa_file : String
  append : String
deriving DecidableEq, Repr

/-- `allowed_func_names` from `process_cnv` (verbatim, including the
duplicated `wild_edit`). -/
def allowed_func_names : List String :=
  ["dat_cnv", "filter", "align_ctd", "cell_thermal_mass", "loop_edit",
   "wild_edit", "derive", "bin_avg", "derive_teos10", "wild_edit"]

/-- Observable actions of the step pipeline, in order. -/
inductive Event
  /-- a successful `open(name, "r")` + read -/
  | readFile (name : String)
  /-- a write of the named intermediate file -/
  | writeFile (name : String)
  /-- `send.put(("process_step", func, num, num_steps))` -/
  | progress (func : String) (num total : Nat)
  /-- invocation of the per-step `log` callback with the new path -/
  | logStep (path : String)
deriving DecidableEq, Repr

/-- Mutable state of the `process_cnv` loop: the processing directory,
the trace so far, `target_file_ext`, and the `cnvpath` local (unbound
until the first non-`dat_cnv` step completes). -/
structure LoopSt where
  fs : FsDir
  events : List Event
  target_ext : String
  cnvpath : Option String
deriving DecidableEq, Repr

/-- Exceptions escaping the `process_cnv` loop, with the step at which
the loop stopped. -/
inductive PipeErr
  /-- `ValueError(f"Invalid function name: ...")` at step index `idx` -/
  | invalidFunction (func : String) (idx : Nat)
  /-- `FileNotFoundError` opening the step's input file -/
  | fileNotFound (name : String)
  /-- the external transform raised while executing step `idx` -/
  | transformFailed (func : String) (idx : Nat) (msg : String)
  /-- `UnboundLocalError`: `return cnvpath` with `cnvpath` never assigned -/
  | noResult
deriving DecidableEq, Repr

/-- One iteration of the `for i, step in enumerate(...)` loop body of
`process_cnv`, with the body of `process_step` inlined: validate the
function name, skip `dat_cnv`, otherwise emit the progress message,
read `<base><target_ext>.cnv`, apply the transform, write
`<base><target_ext><append>.cnv`, optionally invoke the `log` callback,
and advance `target_ext` and `cnvpath`.  On an exception the partially
updated state accompanies the error. -/
def execStep (base : String) (tr : String → String → Except String String)
    (total : Nat) (hasLog : Bool) (step : Step) (i : Nat) (st : LoopSt) :
    Except (PipeErr × LoopSt) LoopSt :=
  if step.function ∉ allowed_func_names then
    .error (.invalidFunction step.function i, st)
  else if step.function = "dat_cnv" then
    .ok st
  else
    let stP : LoopSt := { st with events := st.events ++ [.progress step.function (i + 1) total] }
    let iname := base ++ stP.target_ext ++ ".cnv"
    match fsLookup stP.fs iname with
    | none => .error (.fileNotFound iname, stP)
    | some content =>
      let stR : LoopSt := { stP with events := stP.events ++ [.readFile iname] }
      match tr step.function content with
      | .error msg => .error (.transformFailed step.function i msg, stR)
      | .ok output =>
        let resultExt := stR.target_ext ++ step.append
        let dest := base ++ resultExt ++ ".cnv"
        .ok { fs := fsWrite stR.fs dest output
              events := stR.events ++ [.writeFile dest] ++ (if hasLog then [.logStep dest] else [])
              target_ext := resultExt
              cnvpath := some dest }

/-- The `for i, step in enumerate(CONFIG.processing_sequence)` loop of
`process_cnv`: execute each step in order, propagating the first
exception. -/
def runSteps (base : String) (tr : String → String → Except String String)
    (total : Nat) (hasLog : Bool) :
    List Step → Nat → LoopSt → Except (PipeErr × LoopSt) LoopSt
  | [], _, st => .ok st
  | step :: rest, i, st =>
    match execStep base tr total hasLog step i st with
    | .error e => .error e
    | .ok st' => runSteps base tr total hasLog rest (i + 1) st'

/-- `process_cnv(ctdfile, sbe, send, log)` over the processing
directory `fs`.  `hasLog` records whether a `log` callback was passed
(the orchestrator passes none).  Returns the outcome together with the
final state of the directory and trace. -/
def process_cnv (base : String) (tr : String → String → Except String String)
    (hasLog : Bool) (steps : List Step) (fs : FsDir) :
    Except PipeErr String × LoopSt :=
  match runSteps base tr steps.length hasLog steps 0 ⟨fs, [], "_C", none⟩ with
  | .error (e, st) => (.error e, st)
  | .ok st =>
    match st.cnvpath with
    | some p => (.ok p, st)
    | none => (.error .noResult, st)

/-- Exceptions escaping `convert_hex_to_cnv`. -/
inductive ConvertErr
  /-- `open(ctdfile.hex_path)` failed -/
  | hexNotFound (name : String)
  /-- `sbe.dat_cnv` raised -/
  | datCnvFailed (msg : String)
deriving DecidableEq, Repr

/-- `convert_hex_to_cnv(ctdfile, sbe)`: read the raw capture, convert
with `sbe.dat_cnv`, and write `f"{ctdfile.base_file_name}C.cnv"` into
the processing directory (note: no underscore before the `C` in the
source). -/
def convert_hex_to_cnv (hexName base : String)
    (dat_cnv : String → Except String String) (fs : FsDir) : Except ConvertErr FsDir :=
  match fsLookup fs hexName with
  | none => .error (.hexNotFound hexName)
  | some content =>
    match dat_cnv content with
    | .error msg => .error (.datCnvFailed msg)
    | .ok output => .ok (fsWrite fs (base ++ "C.cnv") output)

/-! ### `process.move_to_approved_dir` -/

/-- ASCII whitespace stripped by Python's `str.strip()`. -/
def isSpaceChar (c : Char) : Bool :=
  c = ' ' ∨ c = '\t' ∨ c = '\n' ∨ c = '\r' ∨ c = '\x0b' ∨ c = '\x0c'

/-- Python `s.strip()`: remove leading and trailing whitespace. -/
def pyStrip (s : String) : String :=
  ⟨((s.data.dropWhile isSpaceChar).reverse.dropWhile isSpaceChar).reverse⟩

/-- The approved directory after the move: the remaining top-level
files and the four role subdirectories. -/
structure ApprovedDir where
  top : FsDir
  raw : FsDir
  done : FsDir
  psa : FsDir
  config : FsDir
deriving DecidableEq, Repr

/-- The parts of the filesystem `move_to_approved_dir` touches: the
cast's processing directory and approved directory (either may be
absent). -/
structure Archive where
  procDir : Option FsDir
  apprDir : Option ApprovedDir
deriving DecidableEq, Repr

/-- Exceptions raised by `move_to_approved_dir`. -/
inductive MoveErr
  /-- `FileExistsError: destination directory already exists` -/
  | alreadyApproved
  /-- `shutil.move` failed: no processing directory -/
  | procDirMissing
  /-- `open(approved_dir / "approve_comment.txt", mode='x')` failed -/
  | commentFileExists
  /-- `cnv_files[-1]` raised `IndexError` (audit enabled, no cnv files) -/
  | noCnvFiles
deriving DecidableEq, Repr

/-- The reorganisation loop of `move_to_approved_dir`: each top-level
file moves to the subdirectory matching its extension; other files are
left at the top level with a warning. -/
def reorganizeFiles (moved : FsDir) : ApprovedDir :=
  { top := moved.filter fun p =>
      ¬ (strEnds p.1 ".cnv" ∨ strEnds p.1 ".psa" ∨ strEnds p.1 ".xmlcon" ∨ strEnds p.1 ".hex")
    raw := moved.filter fun p =>
      ¬ strEnds p.1 ".cnv" ∧ ¬ strEnds p.1 ".psa" ∧ ¬ strEnds p.1 ".xmlcon" ∧ strEnds p.1 ".hex"
    done := moved.filter fun p => strEnds p.1 ".cnv"
    psa := moved.filter fun p => ¬ strEnds p.1 ".cnv" ∧ strEnds p.1 ".psa"
    config := moved.filter fun p =>
      ¬ strEnds p.1 ".cnv" ∧ ¬ strEnds p.1 ".psa" ∧ strEnds p.1 ".xmlcon" }

/-- The audit-log selection at the end of `move_to_approved_dir`:
`cnv_files.sort(key=lambda p: len(p.name))` is stable, so
`cnv_files[-1]` is the last file (in enumeration order) among those of
maximal name length. -/
def lastLongestCnv (cnvs : FsDir) : Option String :=
  cnvs.foldl (fun acc p =>
    match acc with
    | none => some p.1
    | some n => if n.length ≤ p.1.length then some p.1 else some n) none

/-- `move_to_approved_dir(ctdfile, approve_comment)`.

`approveDate` stands for `datetime.now()`; `auditEnabled` for
`CONFIG.audit_log` being configured.  Returns the error (if any), the
resulting filesystem state — partial mutations survive an exception —
and the cnv file recorded by the audit log. -/
def move_to_approved_dir (a : Archive) (approve_comment : String)
    (approveDate : String) (auditEnabled : Bool) :
    Option MoveErr × Archive × Option String :=
  let comment := pyStrip approve_comment
  match a.apprDir with
  | some _ => (some .alreadyApproved, a, none)
  | none =>
    match a.procDir with
    | none => (some .procDirMissing, a, none)
    | some procFiles =>
      let appr := reorganizeFiles procFiles
      if comment ≠ "" ∧ (fsLookup appr.top "approve_comment.txt").isSome then
        (some .commentFileExists, ⟨none, some appr⟩, none)
      else
        let appr :=
          if comment ≠ "" then
            { appr with top := appr.top ++ [("approve_comment.txt", approveDate ++ "\n" ++ comment ++ "\n")] }
          else appr
        if auditEnabled then
          match lastLongestCnv appr.done with
          | none => (some .noCnvFiles, ⟨none, some appr⟩, none)
          | some lastCnv => (none, ⟨none, some appr⟩, some lastCnv)
        else (none, ⟨none, some appr⟩, none)

/-! ### `process.process_hex_file` (orchestrator)

`CTDFile` (hex-header parsing, path derivation) and the psa latitude
rewriter are collaborators outside the embedded sources:

* configuration-folder resolution is abstracted to a parameter
  `resolved : Except String CfgFolder`, the outcome of
  `get_config_dir` plus reading the folder; the orchestrator's
  `try/except` (any failure → proceed without a folder) is
  `resolved.toOption`;
* Modelled from the spec: `rewrite_psa_file(path, latitude)` — the
  missing `psa_file.py` collaborator — "rewrites every profile file
  referenced by the step sequence with the cast's latitude"; embedded
  as an abstract content substitution `rewriteFn content latitude`,
  raising if the profile file does not exist. -/

/-- Audit-log actions of one orchestrator run. -/
inductive AuditEvent
  /-- `audit.log_step(ctdfile, cnvpath, mixin_info)` via the `log` closure -/
  | logStep (path : String)
  /-- `audit.flush()` -/
  | flush
deriving DecidableEq, Repr

/-- Exceptions escaping `process_hex_file`. -/
inductive OrchErr
  /-- `Processing dir already exists` (and `exist_ok` false) -/
  | procDirExists
  /-- `latitude is required` -/
  | latitudeRequired
  /-- `setup_processing_dir` raised -/
  | setupFailed (e : SetupErr)
  /-- `rewrite_psa_file` raised: referenced profile file missing -/
  | psaNotFound (name : String)
  /-- `convert_hex_to_cnv` raised -/
  | convertFailed (e : ConvertErr)
  /-- `process_cnv` raised -/
  | pipelineFailed (e : PipeErr)
  /-- `TypeError`: `log(...)` called with `log = None` (audit disabled) -/
  | noneNotCallable
deriving DecidableEq, Repr

/-- The `for i, step in enumerate(CONFIG.processing_sequence)` rewrite
loop of `process_hex_file`: each step's `psa_file` in the processing
directory is rewritten with the latitude. -/
def rewritePsaFiles (rewriteFn : String → String → String) (latitude : String) :
    List Step → FsDir → Except String FsDir
  | [], fs => .ok fs
  | step :: rest, fs =>
    match fsLookup fs step.psa_file with
    | none => .error step.psa_file
    | some content => rewritePsaFiles rewriteFn latitude rest (fsWrite fs step.psa_file (rewriteFn content latitude))

/-- `process_hex_file(ctdfile, audit, send, exist_ok)`.

Key control flow from the source: the existing-directory and latitude
preconditions; resolution failure is non-fatal (`config_folder = None`);
`setup_processing_dir`; the psa rewrite loop; `convert_hex_to_cnv`;
`process_cnv(ctdfile, sbe, send)` — no per-step `log` argument is
passed; then the unconditional `log(ctdfile, cnvpath, sbe.last_command)`
call, where `log` is a function only if `audit` was given, and `None`
otherwise; finally `audit.flush()` when auditing.  Returns the outcome
(final cnv path) and the audit-event trace. -/
def process_hex_file (base hexName hexContent : String) (latitude : Option String)
    (d : ProcDir) (exist_ok : Bool) (resolved : Except String CfgFolder)
    (steps : List Step) (rewriteFn : String → String → String)
    (tr : String → String → Except String String) (audit : Bool) :
    Except OrchErr String × List AuditEvent :=
  if d.exists' ∧ ¬ exist_ok then (.error .procDirExists, [])
  else
    match latitude with
    | none => (.error .latitudeRequired, [])
    | some lat =>
      if lat = "" then (.error .latitudeRequired, [])
      else
        let configFolder := resolved.toOption
        match setup_processing_dir d hexName hexContent configFolder with
        | .error e => (.error (.setupFailed e), [])
        | .ok (_xmlconName, d1) =>
          match rewritePsaFiles rewriteFn lat steps d1.files with
          | .error n => (.error (.psaNotFound n), [])
          | .ok files1 =>
            match convert_hex_to_cnv hexName base (tr "dat_cnv") files1 with
            | .error e => (.error (.convertFailed e), [])
            | .ok files2 =>
              match (process_cnv base tr false steps files2).1 with
              | .error e => (.error (.pipelineFailed e), [])
              | .ok cnvpath =>
                if audit then (.ok cnvpath, [.logStep cnvpath, .flush])
                else (.error .noneNotCallable, [])

/-! ## Helper lemmas -/

/-- Executing a concatenated step list runs the prefix first and, when
it does not raise, continues with the remainder at the shifted index. -/
theorem runSteps_append (base : String) (tr : String → String → Except String String)
    (total : Nat) (hl : Bool) (pre rest : List Step) (i : Nat) (st : LoopSt) :
    runSteps base tr total hl (pre ++ rest) i st =
      match runSteps base tr total hl pre i st with
      | .error e => .error e
      | .ok st' => runSteps base tr total hl rest (i + pre.length) st' := by
  induction pre generalizing i st with
  | nil => simp [runSteps]
  | cons s pre ih =>
    rw [List.cons_append]
    simp only [runSteps]
    cases execStep base tr total hl s i st with
    | error e => rfl
    | ok st' =>
      dsimp only
      rw [ih]
      cases runSteps base tr total hl pre (i + 1) st' with
      | error e => rfl
      | ok st'' =>
        dsimp only
        rw [List.length_cons, Nat.add_comm pre.length 1, ← Nat.add_assoc]

/-- A step whose function is `dat_cnv` is a no-op of the loop. -/
theorem execStep_dat_cnv (base : String) (tr : String → String → Except String String)
    (total : Nat) (hl : Bool) (step : Step) (i : Nat) (st : LoopSt)
    (h : step.function = "dat_cnv") :
    execStep base tr total hl step i st = .ok st := by
  simp [execStep, h, allowed_func_names]

/-- A list of steps that are all `dat_cnv` leaves the loop state
untouched. -/
theorem runSteps_all_dat_cnv (base : String) (tr : String → String → Except String String)
    (total : Nat) (hl : Bool) (steps : List Step) (i : Nat) (st : LoopSt)
    (h : ∀ s ∈ steps, s.function = "dat_cnv") :
    runSteps base tr total hl steps i st = .ok st := by
  induction steps generalizing i with
  | nil => rfl
  | cons s rest ih =>
    simp only [runSteps]
    rw [execStep_dat_cnv base tr total hl s i st (h s (by simp))]
    exact ih (i + 1) fun x hx => h x (by simp [hx])

/-- An uncaught `strptime` failure on a directory entry aborts the
resolver loop, whatever the accumulator holds, provided every earlier
directory entry parsed. -/
theorem configDirLoop_parse_abort (castDate : Nat) (e : DirEntry) (rest : List DirEntry)
    (hdir : e.isDir = true) (hfail : strptimeYmd (lastEight e.name) = none) :
    ∀ (pre : List DirEntry),
      (∀ x ∈ pre, x.isDir = true → strptimeYmd (lastEight x.name) ≠ none) →
      ∀ acc, configDirLoop castDate (pre ++ e :: rest) acc = .error (.strptimeError e.name) := by
  intro pre
  induction pre with
  | nil =>
    intro _ acc
    simp only [List.nil_append, configDirLoop, hdir, if_true, hfail]
  | cons x pre ih =>
    intro hpre acc
    simp only [List.cons_append, configDirLoop]
    by_cases hx : x.isDir
    · simp only [hx, if_true]
      cases hparse : strptimeYmd (lastEight x.name) with
      | none => exact absurd hparse (hpre x (by simp) hx)
      | some d => exact ih (fun y hy hyd => hpre y (by simp [hy]) hyd) _
    · simp only [hx, Bool.false_eq_true, if_false]
      exact ih (fun y hy hyd => hpre y (by simp [hy]) hyd) acc

/-- `smart_copy_file` never removes a `glob('*.xmlcon')` match. -/
theorem xmlconNames_smart_copy_le (fs : FsDir) (n c : String) :
    (xmlconNames fs).length ≤ (xmlconNames (smart_copy_file fs n c)).length := by
  unfold smart_copy_file
  split
  · exact Nat.le_refl _
  · simp only [xmlconNames, List.filter_append, List.map_append, List.length_append]
    exact Nat.le_add_right _ _

/-- A successful reversed-prefix match pins down the head of the
reversed list, i.e. the last character of the original string. -/
theorem revPre_head (a : Char) (as l : List Char) (h : revPre (a :: as) l = true) :
    l.head? = some a := by
  cases l with
  | nil => simp [revPre] at h
  | cons b bs =>
    simp only [revPre, Bool.and_eq_true, decide_eq_true_eq] at h
    rw [h.1]
    rfl

/-- A `.psa` name is never a `.xmlcon` name (their last characters
differ). -/
theorem strEnds_psa_not_xmlcon (s : String) (h : strEnds s ".psa" = true) :
    strEnds s ".xmlcon" = false := by
  by_contra hx
  rw [Bool.not_eq_false] at hx
  unfold strEnds at h hx
  have e1 : (".psa" : String).data.reverse = 'a' :: ['s', 'p', '.'] := rfl
  have e2 : (".xmlcon" : String).data.reverse = 'n' :: ['o', 'c', 'l', 'm', 'x', '.'] := rfl
  rw [e1] at h
  rw [e2] at hx
  have h1 := revPre_head _ _ _ h
  have h2 := revPre_head _ _ _ hx
  rw [h1] at h2
  exact absurd (Option.some.inj h2) (by decide)

/-- Copying an already-present file is a no-op. -/
theorem smart_copy_present (fs : FsDir) (n c : String) (h : (fsLookup fs n).isSome) :
    smart_copy_file fs n c = fs := by
  unfold smart_copy_file
  rw [if_pos h]

/-- `smart_copy_file` preserves every existing (name, content) pair. -/
theorem mem_smart_copy (fs : FsDir) (n c : String) (p : String × String) (h : p ∈ fs) :
    p ∈ smart_copy_file fs n c := by
  unfold smart_copy_file
  split
  · exact h
  · exact List.mem_append_left _ h

/-- `copyPsaFiles` preserves every existing (name, content) pair. -/
theorem mem_copyPsaFiles (entries : List CfgEntry) (fs : FsDir) (p : String × String)
    (h : p ∈ fs) : p ∈ copyPsaFiles entries fs := by
  induction entries generalizing fs with
  | nil => exact h
  | cons e rest ih =>
    unfold copyPsaFiles
    split
    · split
      · exact ih _ (mem_smart_copy _ _ _ _ h)
      · exact ih _ h
    · exact ih _ h

/-- Appending entries on the right cannot lose a lookup hit. -/
theorem fsLookup_append_isSome (fs l : FsDir) (n : String) (h : (fsLookup fs n).isSome) :
    (fsLookup (fs ++ l) n).isSome := by
  induction fs with
  | nil => simp [fsLookup] at h
  | cons p rest ih =>
    obtain ⟨k, v⟩ := p
    rw [List.cons_append]
    unfold fsLookup at h ⊢
    split
    · rfl
    · exact ih (by rwa [if_neg (by assumption)] at h)

/-- A name appended at the end of the listing is found. -/
theorem fsLookup_append_self (fs : FsDir) (n c : String) :
    (fsLookup (fs ++ [(n, c)]) n).isSome := by
  induction fs with
  | nil => simp [fsLookup]
  | cons p rest ih =>
    obtain ⟨k, v⟩ := p
    rw [List.cons_append]
    unfold fsLookup
    split
    · rfl
    · exact ih

/-- After `smart_copy_file fs n c`, the name `n` is present. -/
theorem fsLookup_smart_copy_self (fs : FsDir) (n c : String) :
    (fsLookup (smart_copy_file fs n c) n).isSome := by
  unfold smart_copy_file
  split
  · assumption
  · exact fsLookup_append_self fs n c

/-- `smart_copy_file` cannot lose a lookup hit. -/
theorem fsLookup_smart_copy_mono (fs : FsDir) (n c m : String)
    (h : (fsLookup fs m).isSome) : (fsLookup (smart_copy_file fs n c) m).isSome := by
  unfold smart_copy_file
  split
  · exact h
  · exact fsLookup_append_isSome fs _ m h

/-- `copyPsaFiles` cannot lose a lookup hit. -/
theorem fsLookup_copyPsaFiles_mono (entries : List CfgEntry) (fs : FsDir) (m : String)
    (h : (fsLookup fs m).isSome) : (fsLookup (copyPsaFiles entries fs) m).isSome := by
  induction entries generalizing fs with
  | nil => exact h
  | cons e rest ih =>
    unfold copyPsaFiles
    split
    · split
      · exact ih _ (fsLookup_smart_copy_mono _ _ _ _ h)
      · exact ih _ h
    · exact ih _ h

/-- Every `.psa` regular file of the configuration folder is present
after `copyPsaFiles`. -/
theorem copyPsaFiles_entry_present (entries : List CfgEntry) (fs : FsDir) :
    ∀ e ∈ entries, strEnds e.name ".psa" = true → e.isFile = true →
      (fsLookup (copyPsaFiles entries fs) e.name).isSome := by
  induction entries generalizing fs with
  | nil => intro e he; simp at he
  | cons e0 rest ih =>
    intro e he hpsa hfile
    rcases List.mem_cons.mp he with he0 | hrest
    · subst he0
      unfold copyPsaFiles
      rw [if_pos hpsa, if_pos hfile]
      exact fsLookup_copyPsaFiles_mono rest _ _ (fsLookup_smart_copy_self fs _ _)
    · unfold copyPsaFiles
      split
      · split
        · exact ih _ e hrest hpsa hfile
        · exact ih _ e hrest hpsa hfile
      · exact ih _ e hrest hpsa hfile

/-- If every `.psa` regular file of the folder is already present,
`copyPsaFiles` is the identity. -/
theorem copyPsaFiles_id (entries : List CfgEntry) (fs : FsDir)
    (h : ∀ e ∈ entries, strEnds e.name ".psa" = true → e.isFile = true →
      (fsLookup fs e.name).isSome) :
    copyPsaFiles entries fs = fs := by
  induction entries with
  | nil => rfl
  | cons e rest ih =>
    unfold copyPsaFiles
    split
    · split
      · rw [smart_copy_present fs _ _ (h e (by simp) (by assumption) (by assumption))]
        exact ih fun e' he' => h e' (by simp [he'])
      · exact ih fun e' he' => h e' (by simp [he'])
    · exact ih fun e' he' => h e' (by simp [he'])

/-- Copying a non-`.xmlcon` file does not change the xmlcon glob. -/
theorem xmlconNames_smart_copy_not_x (fs : FsDir) (n c : String)
    (h : strEnds n ".xmlcon" = false) :
    xmlconNames (smart_copy_file fs n c) = xmlconNames fs := by
  unfold smart_copy_file
  split
  · rfl
  · simp [xmlconNames, List.filter_append, h]

/-- `copyPsaFiles` does not change the xmlcon glob. -/
theorem xmlconNames_copyPsaFiles (entries : List CfgEntry) (fs : FsDir) :
    xmlconNames (copyPsaFiles entries fs) = xmlconNames fs := by
  induction entries generalizing fs with
  | nil => rfl
  | cons e rest ih =>
    unfold copyPsaFiles
    split
    · split
      · rw [ih, xmlconNames_smart_copy_not_x _ _ _ (strEnds_psa_not_xmlcon e.name (by assumption))]
      · exact ih fs
    · exact ih fs

/-- Copying an absent `.xmlcon` file appends exactly its name to the
xmlcon glob. -/
theorem xmlconNames_smart_copy_x (fs : FsDir) (n c : String)
    (hx : strEnds n ".xmlcon" = true) (habs : ¬ (fsLookup fs n).isSome = true) :
    xmlconNames (smart_copy_file fs n c) = xmlconNames fs ++ [n] := by
  unfold smart_copy_file
  rw [if_neg habs]
  simp [xmlconNames, List.filter_append, hx]

/-- A present `.xmlcon` name occurs in the xmlcon glob. -/
theorem mem_xmlconNames_of_lookup (fs : FsDir) (n : String)
    (hs : (fsLookup fs n).isSome) (hx : strEnds n ".xmlcon" = true) :
    n ∈ xmlconNames fs := by
  induction fs with
  | nil => simp [fsLookup] at hs
  | cons p rest ih =>
    obtain ⟨k, v⟩ := p
    unfold fsLookup at hs
    by_cases hk : k = n
    · subst hk
      unfold xmlconNames
      rw [List.filter_cons, if_pos (by simpa using hx)]
      simp
    · rw [if_neg hk] at hs
      unfold xmlconNames
      rw [List.filter_cons]
      split
      · simp only [List.map_cons]
        exact List.mem_cons_of_mem _ (ih hs)
      · exact ih hs

/-- The result of a successful `get_xmlcon` is a `.xmlcon`-named
regular file of the folder. -/
theorem get_xmlcon_qualifies (cfg : CfgFolder) (x : CfgEntry)
    (h : get_xmlcon cfg = .ok x) : strEnds x.name ".xmlcon" = true ∧ x.isFile = true := by
  have key : ∀ (l : List CfgEntry) (acc : Option CfgEntry),
      (∀ a, acc = some a → strEnds a.name ".xmlcon" = true ∧ a.isFile = true) →
      xmlconLoop l acc = .ok x → strEnds x.name ".xmlcon" = true ∧ x.isFile = true := by
    intro l
    induction l with
    | nil =>
      intro acc hacc hloop
      cases acc with
      | none => simp [xmlconLoop] at hloop
      | some a =>
        have : a = x := by simpa [xmlconLoop] using hloop
        exact this ▸ hacc a rfl
    | cons e rest ih =>
      intro acc hacc hloop
      unfold xmlconLoop at hloop
      split at hloop
      · cases acc with
        | some a => simp at hloop
        | none =>
          exact ih (some e) (fun a ha => by cases ha; exact ⟨(by assumption : _ ∧ _).1,
            (by assumption : _ ∧ _).2⟩) hloop
      · exact ih acc hacc hloop
  exact key cfg.entries none (by intro a ha; cases ha) h

/-- Re-running setup on the directory produced by a first run that
copied the config folder's xmlcon (no xmlcon pre-existed) returns the
same xmlcon name and changes nothing. -/
theorem setup_again_cfg_new (dfiles : FsDir) (hexName hexContent : String)
    (c : CfgFolder) (xc : CfgEntry)
    (hE : xmlconNames (smart_copy_file dfiles hexName hexContent) = [])
    (hget : get_xmlcon c = .ok xc) :
    setup_processing_dir
        ⟨true, smart_copy_file (copyPsaFiles c.entries (smart_copy_file dfiles hexName hexContent))
          xc.name xc.content⟩ hexName hexContent (some c) =
      .ok (xc.name,
        ⟨true, smart_copy_file (copyPsaFiles c.entries (smart_copy_file dfiles hexName hexContent))
          xc.name xc.content⟩) := by
  obtain ⟨hxname, hxfile⟩ := get_xmlcon_qualifies c xc hget
  have hhex3 : (fsLookup (smart_copy_file (copyPsaFiles c.entries
      (smart_copy_file dfiles hexName hexContent)) xc.name xc.content) hexName).isSome :=
    fsLookup_smart_copy_mono _ _ _ _ (fsLookup_copyPsaFiles_mono _ _ _
      (fsLookup_smart_copy_self dfiles hexName hexContent))
  have habs : ¬ (fsLookup (copyPsaFiles c.entries (smart_copy_file dfiles hexName hexContent))
      xc.name).isSome = true := by
    intro hmem
    have hmem2 := mem_xmlconNames_of_lookup _ xc.name hmem hxname
    rw [xmlconNames_copyPsaFiles, hE] at hmem2
    simp at hmem2
  have hx3 : xmlconNames (smart_copy_file (copyPsaFiles c.entries
      (smart_copy_file dfiles hexName hexContent)) xc.name xc.content) = [xc.name] := by
    rw [xmlconNames_smart_copy_x _ xc.name xc.content hxname habs,
      xmlconNames_copyPsaFiles, hE]
    rfl
  have hpsa3 : ∀ e ∈ c.entries, strEnds e.name ".psa" = true → e.isFile = true →
      (fsLookup (smart_copy_file (copyPsaFiles c.entries
        (smart_copy_file dfiles hexName hexContent)) xc.name xc.content) e.name).isSome :=
    fun e he hp hf =>
      fsLookup_smart_copy_mono _ _ _ _ (copyPsaFiles_entry_present c.entries _ e he hp hf)
  simp only [setup_processing_dir]
  rw [smart_copy_present _ hexName hexContent hhex3, hx3]
  rw [if_neg (by simp)]
  rw [copyPsaFiles_id c.entries _ hpsa3]
  rw [if_neg (by simp)]
  rfl

/-- Re-running setup when an xmlcon already existed before the first
run (config folder supplied) returns the same name and changes
nothing. -/
theorem setup_again_cfg_existing (dfiles : FsDir) (hexName hexContent : String)
    (c : CfgFolder)
    (hne : ¬ (xmlconNames (smart_copy_file dfiles hexName hexContent)).length = 0)
    (hle : ¬ 1 < (xmlconNames (smart_copy_file dfiles hexName hexContent)).length) :
    setup_processing_dir
        ⟨true, copyPsaFiles c.entries (smart_copy_file dfiles hexName hexContent)⟩
        hexName hexContent (some c) =
      .ok ((xmlconNames (smart_copy_file dfiles hexName hexContent)).headD "",
        ⟨true, copyPsaFiles c.entries (smart_copy_file dfiles hexName hexContent)⟩) := by
  have hhex2 : (fsLookup (copyPsaFiles c.entries (smart_copy_file dfiles hexName hexContent))
      hexName).isSome :=
    fsLookup_copyPsaFiles_mono _ _ _ (fsLookup_smart_copy_self dfiles hexName hexContent)
  have hpsa2 : ∀ e ∈ c.entries, strEnds e.name ".psa" = true → e.isFile = true →
      (fsLookup (copyPsaFiles c.entries (smart_copy_file dfiles hexName hexContent))
        e.name).isSome :=
    fun e he hp hf => copyPsaFiles_entry_present c.entries _ e he hp hf
  simp only [setup_processing_dir]
  rw [smart_copy_present _ hexName hexContent hhex2, xmlconNames_copyPsaFiles]
  rw [if_neg hle]
  rw [copyPsaFiles_id c.entries _ hpsa2, if_neg hne]

/-- Re-running setup without a config folder changes nothing. -/
theorem setup_again_nocfg (dfiles : FsDir) (hexName hexContent : String)
    (hne : ¬ (xmlconNames (smart_copy_file dfiles hexName hexContent)).length = 0)
    (hle : ¬ 1 < (xmlconNames (smart_copy_file dfiles hexName hexContent)).length)
    (hpsa : ¬ (psaNames (smart_copy_file dfiles hexName hexContent)).length = 0) :
    setup_processing_dir ⟨true, smart_copy_file dfiles hexName hexContent⟩
        hexName hexContent none =
      .ok ((xmlconNames (smart_copy_file dfiles hexName hexContent)).headD "",
        ⟨true, smart_copy_file dfiles hexName hexContent⟩) := by
  have hhex1 : (fsLookup (smart_copy_file dfiles hexName hexContent) hexName).isSome :=
    fsLookup_smart_copy_self dfiles hexName hexContent
  simp only [setup_processing_dir]
  rw [smart_copy_present _ hexName hexContent hhex1]
  rw [if_neg hle]
  rw [if_neg hne, if_neg hpsa]

/-! ## Claims -/

/-- C1: the claim states that config-folder resolution returns the
qualifying subdirectory with the *maximum* parsed date regardless of
enumeration order.  The code keeps the *last* qualifying entry in
enumeration order: with subdirectories enumerated as `20210601`,
`20200101` and a cast dated `2021-12-01`, both qualify, the maximum is
`20210601`, and `get_config_dir` returns `20200101`. -/
theorem config_dir_enumeration_order_bug :
    get_config_dir [⟨"20210601", true⟩, ⟨"20200101", true⟩] 20211201 = .ok "20200101" ∧
    strptimeYmd "20210601" = some 20210601 ∧ 20210601 ≤ 20211201 ∧
    strptimeYmd "20200101" = some 20200101 ∧ (20200101 : Nat) < 20210601 ∧
    ("20200101" : String) ≠ "20210601" := by
  refine ⟨rfl, rfl, by norm_num, rfl, by norm_num, by decide⟩

/-- C2: the claim states the initial conversion writes `<base>_C.cnv`,
the file the first pipeline step then reads.  `convert_hex_to_cnv`
writes `f"{base_file_name}C.cnv"` — no underscore — while `process_cnv`
starts its suffix chain at `_C`: for base `c1` the conversion writes
`c1C.cnv`, and the first non-`dat_cnv` step fails to open `c1_C.cnv`. -/
theorem convert_hex_suffix_mismatch :
    convert_hex_to_cnv "c1.hex" "c1" (fun c => .ok c) [("c1.hex", "H")] =
      .ok [("c1.hex", "H"), ("c1C.cnv", "H")] ∧
    (process_cnv "c1" (fun _ c => .ok c) false [⟨"filter", "Filter.psa", "F"⟩]
        [("c1.hex", "H"), ("c1C.cnv", "H")]).1 = .error (.fileNotFound "c1_C.cnv") ∧
    "c1C.cnv" ≠ "c1_C.cnv" := by
  refine ⟨rfl, rfl, by decide⟩

/-- C5: the claim states that with auditing disabled the orchestrator
returns normally after the pipeline.  In the source `log` is set to
`None` when no audit log is supplied, yet
`log(ctdfile, cnvpath, sbe.last_command)` is called unconditionally
after `process_cnv`, so a cast that processes successfully ends in a
`TypeError` instead of returning; the identical input with auditing
enabled returns the final path and flushes. -/
theorem audit_disabled_none_call_error :
    process_hex_file "c1" "c1.hex" "H" (some "12.5")
        ⟨true, [("c1.hex", "H"), ("conf.xmlcon", "X"), ("DatCnv.psa", "P"),
                ("Filter.psa", "Q"), ("c1_C.cnv", "CC")]⟩
        true (.error "resolution failed")
        [⟨"dat_cnv", "DatCnv.psa", "C"⟩, ⟨"filter", "Filter.psa", "F"⟩]
        (fun c lat => c ++ lat) (fun _ c => .ok (c ++ "!")) false =
      (.error .noneNotCallable, []) ∧
    process_hex_file "c1" "c1.hex" "H" (some "12.5")
        ⟨true, [("c1.hex", "H"), ("conf.xmlcon", "X"), ("DatCnv.psa", "P"),
                ("Filter.psa", "Q"), ("c1_C.cnv", "CC")]⟩
        true (.error "resolution failed")
        [⟨"dat_cnv", "DatCnv.psa", "C"⟩, ⟨"filter", "Filter.psa", "F"⟩]
        (fun c lat => c ++ lat) (fun _ c => .ok (c ++ "!")) true =
      (.ok "c1_CF.cnv", [.logStep "c1_CF.cnv", .flush]) := by
  exact ⟨rfl, rfl⟩

/-- C3 counterexample: the claim states that a sequence containing an
unrecognized function name fails before *any* file I/O, including for
steps preceding the invalid one.  With the sequence
`[filter, bogus]`, the valid `filter` step reads `c1_C.cnv` and writes
`c1_CF.cnv` before the `bogus` step raises `ValueError`. -/
theorem invalid_function_after_io_cex :
    (process_cnv "c1" (fun _ c => .ok c) false
        [⟨"filter", "F.psa", "F"⟩, ⟨"bogus", "x.psa", "X"⟩] [("c1_C.cnv", "X")]).1 =
      .error (.invalidFunction "bogus" 1) ∧
    (process_cnv "c1" (fun _ c => .ok c) false
        [⟨"filter", "F.psa", "F"⟩, ⟨"bogus", "x.psa", "X"⟩] [("c1_C.cnv", "X")]).2.events =
      [.progress "filter" 1 2, .readFile "c1_C.cnv", .writeFile "c1_CF.cnv"] ∧
    (process_cnv "c1" (fun _ c => .ok c) false
        [⟨"filter", "F.psa", "F"⟩, ⟨"bogus", "x.psa", "X"⟩] [("c1_C.cnv", "X")]).2.fs =
      [("c1_C.cnv", "X"), ("c1_CF.cnv", "X")] := by
  exact ⟨rfl, rfl, rfl⟩

/-- C4 counterexample: the claim states that a subdirectory whose
trailing 8 characters do not parse is skipped and resolution still
succeeds from the remaining subdirectories.  With entries
`notadate!`, `20200101` (the latter qualifying for cast date
`2021-12-01`), `get_config_dir` instead raises the `strptime`
`ValueError` and never reaches the qualifying folder. -/
theorem strptime_aborts_resolution_cex :
    get_config_dir [⟨"notadate!", true⟩, ⟨"20200101", true⟩] 20211201 =
      .error (.strptimeError "notadate!") ∧
    strptimeYmd (lastEight "20200101") = some 20200101 ∧ (20200101 : Nat) ≤ 20211201 := by
  refine ⟨rfl, rfl, by norm_num⟩

/-- C8: step failure is isolated.  If the pipeline executes the prefix
`pre` without an exception (reaching state `st`), and the transform of
the next step `s` raises on the input read at that point, then
`process_cnv` on `pre ++ s :: rest` raises an error attributing step
`s` at index `pre.length`, the directory is exactly as the prefix left
it (earlier outputs intact, nothing written for `s` or any later step),
and the trace extends the prefix trace only by step `s`'s progress
message and input read — no step of `rest` executes. -/
theorem step_failure_isolation
    (base : String) (tr : String → String → Except String String) (hl : Bool)
    (pre rest : List Step) (s : Step) (fs0 : FsDir) (st : LoopSt) (content msg : String)
    (hpre : runSteps base tr (pre ++ s :: rest).length hl pre 0 ⟨fs0, [], "_C", none⟩ = .ok st)
    (hmem : s.function ∈ allowed_func_names) (hnd : s.function ≠ "dat_cnv")
    (hread : fsLookup st.fs (base ++ st.target_ext ++ ".cnv") = some content)
    (htr : tr s.function content = .error msg) :
    (process_cnv base tr hl (pre ++ s :: rest) fs0).1 =
      .error (.transformFailed s.function pre.length msg) ∧
    (process_cnv base tr hl (pre ++ s :: rest) fs0).2.fs = st.fs ∧
    (process_cnv base tr hl (pre ++ s :: rest) fs0).2.events =
      st.events ++ [.progress s.function (pre.length + 1) (pre ++ s :: rest).length,
                    .readFile (base ++ st.target_ext ++ ".cnv")] := by
  have hexec : execStep base tr (pre ++ s :: rest).length hl s pre.length st =
      .error (.transformFailed s.function pre.length msg,
        { st with events := st.events ++
            [.progress s.function (pre.length + 1) (pre ++ s :: rest).length,
             .readFile (base ++ st.target_ext ++ ".cnv")] }) := by
    simp only [execStep, hmem, if_pos, if_neg hnd]
    simp only [not_true_eq_false, if_false, hread, htr, List.append_assoc, List.cons_append,
      List.nil_append]
  unfold process_cnv
  rw [runSteps_append, hpre]
  simp only [runSteps, Nat.zero_add, hexec]
  exact ⟨trivial, trivial, trivial⟩

/-- C8 witness: a concrete three-step run (`filter`, failing
`align_ctd`, never-reached `bin_avg`): the `filter` output `c1_CF.cnv`
is on disk unmodified, nothing of `bin_avg` ran, and the error
attributes `align_ctd` at index 1. -/
theorem step_failure_isolation_witness :
    (process_cnv "c1" (fun f c => if f = "align_ctd" then .error "boom" else .ok (c ++ "!"))
        false ([⟨"filter", "F.psa", "F"⟩] ++ ⟨"align_ctd", "A.psa", "A"⟩ ::
          [⟨"bin_avg", "B.psa", "B"⟩]) [("c1_C.cnv", "X")]).1 =
      .error (.transformFailed "align_ctd" 1 "boom") ∧
    (process_cnv "c1" (fun f c => if f = "align_ctd" then .error "boom" else .ok (c ++ "!"))
        false ([⟨"filter", "F.psa", "F"⟩] ++ ⟨"align_ctd", "A.psa", "A"⟩ ::
          [⟨"bin_avg", "B.psa", "B"⟩]) [("c1_C.cnv", "X")]).2.fs =
      [("c1_C.cnv", "X"), ("c1_CF.cnv", "X!")] ∧
    (process_cnv "c1" (fun f c => if f = "align_ctd" then .error "boom" else .ok (c ++ "!"))
        false ([⟨"filter", "F.psa", "F"⟩] ++ ⟨"align_ctd", "A.psa", "A"⟩ ::
          [⟨"bin_avg", "B.psa", "B"⟩]) [("c1_C.cnv", "X")]).2.events =
      [.progress "filter" 1 3, .readFile "c1_C.cnv", .writeFile "c1_CF.cnv"] ++
        [.progress "align_ctd" 2 3, .readFile "c1_CF.cnv"] := by
  have h := step_failure_isolation "c1"
    (fun f c => if f = "align_ctd" then .error "boom" else .ok (c ++ "!")) false
    [⟨"filter", "F.psa", "F"⟩] [⟨"bin_avg", "B.psa", "B"⟩] ⟨"align_ctd", "A.psa", "A"⟩
    [("c1_C.cnv", "X")]
    ⟨[("c1_C.cnv", "X"), ("c1_CF.cnv", "X!")],
     [.progress "filter" 1 3, .readFile "c1_C.cnv", .writeFile "c1_CF.cnv"], "_CF",
     some "c1_CF.cnv"⟩
    "X!" "boom" rfl (by decide) (by decide) rfl rfl
  exact ⟨h.1, h.2.1, h.2.2⟩

/-- C3 amended: validation of the step function name happens when the
iteration reaches that step, not up front.  If the prefix `pre` runs
without an exception (reaching state `st`) and the next step `s` has a
function name outside the allow-list, `process_cnv` raises the
configuration error at index `pre.length` before any file I/O *of that
step or later steps* — the directory and the trace are exactly as the
preceding (executed) steps left them. -/
theorem invalid_function_fails_at_step
    (base : String) (tr : String → String → Except String String) (hl : Bool)
    (pre rest : List Step) (s : Step) (fs0 : FsDir) (st : LoopSt)
    (hpre : runSteps base tr (pre ++ s :: rest).length hl pre 0 ⟨fs0, [], "_C", none⟩ = .ok st)
    (hbad : s.function ∉ allowed_func_names) :
    (process_cnv base tr hl (pre ++ s :: rest) fs0).1 =
      .error (.invalidFunction s.function pre.length) ∧
    (process_cnv base tr hl (pre ++ s :: rest) fs0).2.fs = st.fs ∧
    (process_cnv base tr hl (pre ++ s :: rest) fs0).2.events = st.events := by
  have hexec : execStep base tr (pre ++ s :: rest).length hl s pre.length st =
      .error (.invalidFunction s.function pre.length, st) := by
    simp [execStep, hbad]
  unfold process_cnv
  rw [runSteps_append, hpre]
  simp only [runSteps, Nat.zero_add, hexec]
  exact ⟨trivial, trivial, trivial⟩

/-- C3 amended witness: with sequence `[filter, bogus]`, the error is
raised at index 1 and the state is exactly the one left by `filter`. -/
theorem invalid_function_fails_at_step_witness :
    (process_cnv "c1" (fun _ c => .ok c) false
        ([⟨"filter", "F.psa", "F"⟩] ++ ⟨"bogus", "x.psa", "X"⟩ :: []) [("c1_C.cnv", "X")]).1 =
      .error (.invalidFunction "bogus" 1) ∧
    (process_cnv "c1" (fun _ c => .ok c) false
        ([⟨"filter", "F.psa", "F"⟩] ++ ⟨"bogus", "x.psa", "X"⟩ :: []) [("c1_C.cnv", "X")]).2.fs =
      [("c1_C.cnv", "X"), ("c1_CF.cnv", "X")] ∧
    (process_cnv "c1" (fun _ c => .ok c) false
        ([⟨"filter", "F.psa", "F"⟩] ++ ⟨"bogus", "x.psa", "X"⟩ :: []) [("c1_C.cnv", "X")]).2.events =
      [.progress "filter" 1 2, .readFile "c1_C.cnv", .writeFile "c1_CF.cnv"] :=
  invalid_function_fails_at_step "c1" (fun _ c => .ok c) false
    [⟨"filter", "F.psa", "F"⟩] [] ⟨"bogus", "x.psa", "X"⟩ [("c1_C.cnv", "X")]
    ⟨[("c1_C.cnv", "X"), ("c1_CF.cnv", "X")],
     [.progress "filter" 1 2, .readFile "c1_C.cnv", .writeFile "c1_CF.cnv"], "_CF",
     some "c1_CF.cnv"⟩
    rfl (by decide)

/-- C10: `process_cnv` returns a final path only when the sequence has
a step other than `dat_cnv`.  If every step is `dat_cnv` (in particular
for the empty sequence) the loop never assigns `cnvpath`, and
`return cnvpath` raises `UnboundLocalError`; conversely a normal return
implies some non-`dat_cnv` step was present. -/
theorem process_cnv_requires_non_datcnv_step
    (base : String) (tr : String → String → Except String String) (hl : Bool)
    (steps : List Step) (fs0 : FsDir) :
    ((∀ s ∈ steps, s.function = "dat_cnv") →
      (process_cnv base tr hl steps fs0).1 = .error .noResult) ∧
    (∀ p, (process_cnv base tr hl steps fs0).1 = .ok p →
      ∃ s ∈ steps, s.function ≠ "dat_cnv") := by
  constructor
  · intro h
    unfold process_cnv
    rw [runSteps_all_dat_cnv base tr steps.length hl steps 0 ⟨fs0, [], "_C", none⟩ h]
  · intro p hp
    by_contra hno
    push_neg at hno
    have h : ∀ s ∈ steps, s.function = "dat_cnv" := hno
    unfold process_cnv at hp
    rw [runSteps_all_dat_cnv base tr steps.length hl steps 0 ⟨fs0, [], "_C", none⟩ h] at hp
    exact absurd hp (by simp)

/-- C10 witness: a sequence consisting of `dat_cnv` alone raises the
unbound-result error. -/
theorem process_cnv_requires_non_datcnv_step_witness :
    (process_cnv "c1" (fun _ c => .ok c) false [⟨"dat_cnv", "D.psa", "C"⟩]
        [("c1_C.cnv", "X")]).1 = .error .noResult :=
  (process_cnv_requires_non_datcnv_step "c1" (fun _ c => .ok c) false
    [⟨"dat_cnv", "D.psa", "C"⟩] [("c1_C.cnv", "X")]).1 (by decide)

/-- C4 amended: a subdirectory whose trailing 8 characters fail to
parse as a `YYYYMMDD` date aborts the whole resolution with the
`strptime` error — only non-directory entries are skipped.  (Stated for
the first such entry: all earlier directory entries parse.) -/
theorem strptime_failure_fatal
    (pre rest : List DirEntry) (e : DirEntry) (castDate : Nat)
    (hdir : e.isDir = true)
    (hfail : strptimeYmd (lastEight e.name) = none)
    (hpre : ∀ x ∈ pre, x.isDir = true → strptimeYmd (lastEight x.name) ≠ none) :
    get_config_dir (pre ++ e :: rest) castDate = .error (.strptimeError e.name) :=
  configDirLoop_parse_abort castDate e rest hdir hfail pre hpre none

/-- C4 amended witness: a qualifying `20200101` folder follows the
unparseable one, yet resolution raises. -/
theorem strptime_failure_fatal_witness :
    get_config_dir ([⟨"notes", false⟩, ⟨"20210601", true⟩] ++ ⟨"notadate!", true⟩ ::
        [⟨"20200101", true⟩]) 20211201 = .error (.strptimeError "notadate!") :=
  strptime_failure_fatal [⟨"notes", false⟩, ⟨"20210601", true⟩] [⟨"20200101", true⟩]
    ⟨"notadate!", true⟩ 20211201 rfl rfl (by decide)

/-- C9: a processing directory holding two or more `.xmlcon` files
makes `setup_processing_dir` fail with the multiple-xmlcons assertion,
with or without a configuration folder: the check runs on the glob
taken right after the hex copy, which only ever adds files. -/
theorem setup_multiple_xmlcons_fatal (d : ProcDir) (hexName hexContent : String)
    (cfg : Option CfgFolder)
    (h : 2 ≤ (xmlconNames d.files).length) :
    setup_processing_dir d hexName hexContent cfg = .error .multipleXmlcons := by
  have hle := xmlconNames_smart_copy_le d.files hexName hexContent
  unfold setup_processing_dir
  rw [if_pos (by omega)]

/-- C9 witness: two `.xmlcon` files fail setup both with and without a
configuration folder. -/
theorem setup_multiple_xmlcons_fatal_witness :
    setup_processing_dir ⟨true, [("a.xmlcon", "X"), ("b.xmlcon", "Y")]⟩ "c1.hex" "H" none =
      .error .multipleXmlcons ∧
    setup_processing_dir ⟨true, [("a.xmlcon", "X"), ("b.xmlcon", "Y")]⟩ "c1.hex" "H"
        (some ⟨[⟨"c.xmlcon", "Z", true⟩]⟩) = .error .multipleXmlcons :=
  ⟨setup_multiple_xmlcons_fatal ⟨true, [("a.xmlcon", "X"), ("b.xmlcon", "Y")]⟩ "c1.hex" "H"
      none (by decide),
   setup_multiple_xmlcons_fatal ⟨true, [("a.xmlcon", "X"), ("b.xmlcon", "Y")]⟩ "c1.hex" "H"
      (some ⟨[⟨"c.xmlcon", "Z", true⟩]⟩) (by decide)⟩

/-- C7: approval is one-shot and unchanged-on-error.  If the approved
directory already exists, `move_to_approved_dir` raises the
`FileExistsError` and the filesystem state is returned untouched (no
file moved, nothing audited); and whenever a call succeeds, a second
call on the resulting state raises that error and changes nothing. -/
theorem move_to_approved_one_shot
    (a a' : Archive) (comment comment' date date' : String) (auditEnabled : Bool)
    (sel : Option String) :
    (a.apprDir.isSome →
      move_to_approved_dir a comment date auditEnabled = (some .alreadyApproved, a, none)) ∧
    (move_to_approved_dir a comment date auditEnabled = (none, a', sel) →
      move_to_approved_dir a' comment' date' auditEnabled = (some .alreadyApproved, a', none)) := by
  constructor
  · intro h
    obtain ⟨x, hx⟩ := Option.isSome_iff_exists.mp h
    unfold move_to_approved_dir
    rw [hx]
  · intro h
    have hsome : a'.apprDir.isSome := by
      unfold move_to_approved_dir at h
      cases ha : a.apprDir with
      | some x => rw [ha] at h; simp at h
      | none =>
        rw [ha] at h
        cases hp : a.procDir with
        | none => rw [hp] at h; simp at h
        | some pf =>
          rw [hp] at h
          dsimp only at h
          split at h
          · simp at h
          · split at h
            · split at h
              · simp at h
              · simp only [Prod.mk.injEq] at h
                rw [← h.2.1]
                rfl
            · simp only [Prod.mk.injEq] at h
              rw [← h.2.1]
              rfl
    obtain ⟨y, hy⟩ := Option.isSome_iff_exists.mp hsome
    unfold move_to_approved_dir
    rw [hy]

/-- C7 witness: a fresh processing directory is approved once; the
second call fails with the already-approved error and leaves the state
unchanged. -/
theorem move_to_approved_one_shot_witness :
    move_to_approved_dir
        ⟨none, some ⟨[], [("c1.hex", "H")], [("c1_C.cnv", "A")], [], []⟩⟩ "" "d2" false =
      (some .alreadyApproved,
       ⟨none, some ⟨[], [("c1.hex", "H")], [("c1_C.cnv", "A")], [], []⟩⟩, none) :=
  (move_to_approved_one_shot ⟨some [("c1.hex", "H"), ("c1_C.cnv", "A")], none⟩
    ⟨none, some ⟨[], [("c1.hex", "H")], [("c1_C.cnv", "A")], [], []⟩⟩ "" "" "d1" "d2" false
    none).2 (by decide)

/-- C6: directory setup is idempotent and never overwrites.  Whenever
`setup_processing_dir` succeeds, every (name, content) pair already in
the processing directory is still there afterwards (existing
destination files — raw capture, `.psa`, `.xmlcon` — are skipped, never
re-copied), and running setup again on the result with identical inputs
raises no error, returns the same xmlcon, and leaves the directory
contents identical. -/
theorem setup_processing_dir_idempotent (d : ProcDir) (hexName hexContent : String)
    (cfg : Option CfgFolder) (x : String) (d' : ProcDir)
    (h : setup_processing_dir d hexName hexContent cfg = .ok (x, d')) :
    (∀ p ∈ d.files, p ∈ d'.files) ∧
    setup_processing_dir d' hexName hexContent cfg = .ok (x, d') := by
  cases cfg with
  | some c =>
    simp only [setup_processing_dir] at h
    split at h
    · simp at h
    · rename_i hle
      split at h
      · rename_i hE0
        split at h
        · simp at h
        · rename_i xc hget
          simp only [Except.ok.injEq, Prod.mk.injEq] at h
          obtain ⟨hx, hd⟩ := h
          subst hx
          subst hd
          refine ⟨fun p hp =>
            mem_smart_copy _ _ _ _ (mem_copyPsaFiles _ _ _ (mem_smart_copy _ _ _ _ hp)), ?_⟩
          exact setup_again_cfg_new d.files hexName hexContent c xc
            (List.length_eq_zero.mp hE0) hget
      · rename_i hne
        simp only [Except.ok.injEq, Prod.mk.injEq] at h
        obtain ⟨hx, hd⟩ := h
        subst hx
        subst hd
        refine ⟨fun p hp => mem_copyPsaFiles _ _ _ (mem_smart_copy _ _ _ _ hp), ?_⟩
        exact setup_again_cfg_existing d.files hexName hexContent c hne hle
  | none =>
    simp only [setup_processing_dir] at h
    split at h
    · simp at h
    · rename_i hle
      split at h
      · simp at h
      · rename_i hne
        split at h
        · simp at h
        · rename_i hpsa
          simp only [Except.ok.injEq, Prod.mk.injEq] at h
          obtain ⟨hx, hd⟩ := h
          subst hx
          subst hd
          refine ⟨fun p hp => mem_smart_copy _ _ _ _ hp, ?_⟩
          exact setup_again_nocfg d.files hexName hexContent hne hle hpsa

/-- C6 witness: a fresh directory set up from a config folder keeps its
files and yields the identical result when set up a second time. -/
theorem setup_processing_dir_idempotent_witness :
    (∀ p ∈ ([("old.txt", "O")] : FsDir),
      p ∈ ([("old.txt", "O"), ("c1.hex", "H"), ("DatCnv.psa", "P"), ("a.xmlcon", "X")] : FsDir)) ∧
    setup_processing_dir
        ⟨true, [("old.txt", "O"), ("c1.hex", "H"), ("DatCnv.psa", "P"), ("a.xmlcon", "X")]⟩
        "c1.hex" "H" (some ⟨[⟨"DatCnv.psa", "P", true⟩, ⟨"a.xmlcon", "X", true⟩]⟩) =
      .ok ("a.xmlcon",
        ⟨true, [("old.txt", "O"), ("c1.hex", "H"), ("DatCnv.psa", "P"), ("a.xmlcon", "X")]⟩) :=
  setup_processing_dir_idempotent ⟨false, [("old.txt", "O")]⟩ "c1.hex" "H"
    (some ⟨[⟨"DatCnv.psa", "P", true⟩, ⟨"a.xmlcon", "X", true⟩]⟩) "a.xmlcon"
    ⟨true, [("old.txt", "O"), ("c1.hex", "H"), ("DatCnv.psa", "P"), ("a.xmlcon", "X")]⟩ rfl

end SbeCtdProc

